import Mathlib

/-!
Verification of the node-to-document synchronization core of jsoncrack
(EditableNodeModal.tsx and the inline NodeModal editor).

The JavaScript values flowing through the code are shallowly embedded as
the inductive type JValue (JSON numbers are carried as integers, which is
the fragment the editing flows exercise).  The two React save handlers are
embedded as pure state-transition functions on an explicit AppState.
-/

/-- A JSON value as manipulated by the two editor flows.  Numbers are
carried as integers (integer-carrier embedding of JS numbers). -/
inductive JValue where
  | null : JValue
  | bool : Bool → JValue
  | num : Int → JValue
  | str : String → JValue
  | arr : List JValue → JValue
  | obj : List (String × JValue) → JValue

/-- A JSON path segment: an object key (string) or an array index (number),
mirroring the string-or-number segments of NodeData.path. -/
inductive JSeg where
  | key : String → JSeg
  | idx : Nat → JSeg
deriving DecidableEq

/-- One row of a node, mirroring the NodeRow type: a possibly absent key, a
value and a type tag (one of "string" "number" "boolean" "null" "object"
"array"). -/
structure NodeRow where
  key : Option String
  value : JValue
  type : String

/-- A tree node, mirroring the two NodeData fields the editing core reads:
its path in the document and its row list. -/
structure NodeData where
  path : List JSeg
  text : List NodeRow

/-- The shared mutable state the save handlers touch: the canonical
document (useJson), the graph node list and selection (useGraph), the
persisted-contents mirror (useFile), plus the modal-local session error and
open flag.  The document is stored in parsed form since the patcher is
modelled structurally. -/
structure AppState where
  doc : JValue
  nodes : List NodeData
  selected : Option NodeData
  fileContents : Option JValue
  error : Option String
  editorOpen : Bool

/-! ## Association-list primitives modelling JS object operations -/

/-- First-match lookup of a key in an association list; models reading a
property of a JS object (and hasOwnProperty when combined with Option). -/
def lookupProp : List (String × JValue) → String → Option JValue
  | [], _ => none
  | (k0, v0) :: rest, k => if k0 = k then some v0 else lookupProp rest k

/-- Property assignment on a JS object: replace the first binding of the
key in place, or append a new binding at the end. -/
def insertProp : List (String × JValue) → String → JValue → List (String × JValue)
  | [], k, v => [(k, v)]
  | (k0, v0) :: rest, k, v =>
      if k0 = k then (k0, v) :: rest else (k0, v0) :: insertProp rest k v

/-- Property deletion on a JS object. -/
def removeProp : List (String × JValue) → String → List (String × JValue)
  | [], _ => []
  | (k0, v0) :: rest, k =>
      if k0 = k then removeProp rest k else (k0, v0) :: removeProp rest k

/-- First-occurrence deduplication, modelling Array.from(new Set(keys)). -/
def jsUniqueAux : List String → List String → List String
  | _, [] => []
  | seen, x :: xs =>
      if x ∈ seen then jsUniqueAux seen xs else x :: jsUniqueAux (x :: seen) xs

/-- Deduplicated key list in first-insertion order, as produced by a JS Set. -/
def jsUnique (l : List String) : List String := jsUniqueAux [] l

/-! ## Decimal rendering of numbers (JS number-to-string on integers) -/

/-- Little-endian base-10 digits of a natural number, computed with
structural fuel so that it evaluates by definitional reduction. -/
def natDigitsAux : Nat → Nat → List Nat
  | 0, _ => []
  | _ + 1, 0 => []
  | fuel + 1, n + 1 => ((n + 1) % 10) :: natDigitsAux fuel ((n + 1) / 10)

/-- The character of a decimal digit. -/
def digitChar (d : Nat) : Char := Char.ofNat (48 + d)

/-- Character list of the decimal representation of a natural number. -/
def natReprChars (n : Nat) : List Char :=
  if 0 < n then (natDigitsAux n n).reverse.map digitChar else ['0']

/-- Decimal representation of a natural number. -/
def natRepr (n : Nat) : String := String.mk (natReprChars n)

/-- Decimal representation of an integer, modelling JS String(n) for
integral numbers. -/
def intRepr (i : Int) : String :=
  if i < 0 then "-" ++ natRepr i.natAbs else natRepr i.toNat

/-! ## A JSON parser modelling JSON.parse on the integer-number fragment -/

/-- Whitespace skipping of the JSON grammar. -/
def dropWs (l : List Char) : List Char :=
  l.dropWhile (fun c => c = ' ' ∨ c = '\n' ∨ c = '\t' ∨ c = '\r')

/-- Reads a maximal run of decimal digits, accumulating their value. -/
def readDigits : Nat → List Char → Nat × List Char
  | acc, [] => (acc, [])
  | acc, c :: cs =>
      if c.isDigit then readDigits (10 * acc + (c.toNat - 48)) cs else (acc, c :: cs)

/-- Reads a natural number literal (at least one digit). -/
def readNat (l : List Char) : Except String (Nat × List Char) :=
  match l with
  | [] => .error "unexpected end of input"
  | c :: _ => if c.isDigit then .ok (readDigits 0 l) else .error "invalid number"

/-- Rejects the fraction/exponent syntax that the integer-carrier embedding
does not represent; otherwise yields the integer value. -/
def noFrac (i : Int) (r : List Char) : Except String (JValue × List Char) :=
  match r with
  | [] => .ok (.num i, [])
  | c :: cs =>
      if c = '.' ∨ c = 'e' ∨ c = 'E' then .error "unsupported number syntax"
      else .ok (.num i, c :: cs)

/-- Parses a (possibly negative) integer number literal. -/
def parseNumber (l : List Char) : Except String (JValue × List Char) :=
  match l with
  | [] => .error "unexpected end of input"
  | c :: rest =>
      if c = '-' then
        match readNat rest with
        | .error e => .error e
        | .ok (n, r) => noFrac (-(n : Int)) r
      else
        match readNat (c :: rest) with
        | .error e => .error e
        | .ok (n, r) => noFrac (n : Int) r

/-- Value of a hexadecimal digit character. -/
def hexVal (c : Char) : Option Nat :=
  if '0' ≤ c ∧ c ≤ '9' then some (c.toNat - 48)
  else if 'a' ≤ c ∧ c ≤ 'f' then some (c.toNat - 87)
  else if 'A' ≤ c ∧ c ≤ 'F' then some (c.toNat - 55)
  else none

/-- Parses the body of a JSON string literal after the opening quote,
handling the escape sequences of the JSON grammar. -/
def parseStrBody : List Char → List Char → Except String (String × List Char)
  | _, [] => .error "unterminated string"
  | acc, c :: cs =>
      if c = '"' then .ok (String.mk acc.reverse, cs)
      else if c = '\\' then
        match cs with
        | [] => .error "unterminated string"
        | e :: cs2 =>
            if e = '"' then parseStrBody ('"' :: acc) cs2
            else if e = '\\' then parseStrBody ('\\' :: acc) cs2
            else if e = '/' then parseStrBody ('/' :: acc) cs2
            else if e = 'b' then parseStrBody ('\x08' :: acc) cs2
            else if e = 'f' then parseStrBody ('\x0c' :: acc) cs2
            else if e = 'n' then parseStrBody ('\n' :: acc) cs2
            else if e = 'r' then parseStrBody ('\r' :: acc) cs2
            else if e = 't' then parseStrBody ('\t' :: acc) cs2
            else if e = 'u' then
              match cs2 with
              | h1 :: h2 :: h3 :: h4 :: cs3 =>
                  match hexVal h1, hexVal h2, hexVal h3, hexVal h4 with
                  | some a, some b, some c3, some d =>
                      parseStrBody (Char.ofNat (4096 * a + 256 * b + 16 * c3 + d) :: acc) cs3
                  | _, _, _, _ => .error "invalid unicode escape"
              | _ => .error "invalid unicode escape"
            else .error "invalid escape"
      else parseStrBody (c :: acc) cs

/-- Checks that the input starts with the given literal characters. -/
def expectLit : List Char → JValue → List Char → Except String (JValue × List Char)
  | [], v, l => .ok (v, l)
  | e :: es, v, l =>
      match l with
      | [] => .error "unexpected end of input"
      | c :: cs => if c = e then expectLit es v cs else .error "unexpected token"

mutual

/-- Recursive-descent JSON value parser (fuel-indexed for structural
recursion). -/
def parseVal : Nat → List Char → Except String (JValue × List Char)
  | 0, _ => .error "input too deeply nested"
  | _ + 1, [] => .error "unexpected end of input"
  | fuel + 1, c :: cs =>
      if c = '-' ∨ c.isDigit then parseNumber (c :: cs)
      else if c = '"' then
        match parseStrBody [] cs with
        | .error e => .error e
        | .ok (s, r) => .ok (.str s, r)
      else if c = '\x7b' then parseObjBody fuel (dropWs cs)
      else if c = '[' then parseArrBody fuel (dropWs cs)
      else if c = 't' then expectLit ['r', 'u', 'e'] (.bool true) cs
      else if c = 'f' then expectLit ['a', 'l', 's', 'e'] (.bool false) cs
      else if c = 'n' then expectLit ['u', 'l', 'l'] .null cs
      else .error "unexpected token"

/-- Parses an object body after the opening brace (whitespace skipped). -/
def parseObjBody : Nat → List Char → Except String (JValue × List Char)
  | 0, _ => .error "input too deeply nested"
  | fuel + 1, l =>
      match l with
      | [] => .error "unexpected end of input"
      | c :: cs =>
          if c = '\x7d' then .ok (.obj [], cs) else parseMembers fuel [] (c :: cs)

/-- Parses the members of a non-empty object body; duplicate keys overwrite
the earlier binding in place, as JSON.parse does. -/
def parseMembers : Nat → List (String × JValue) → List Char → Except String (JValue × List Char)
  | 0, _, _ => .error "input too deeply nested"
  | fuel + 1, acc, l =>
      match l with
      | [] => .error "unexpected end of input"
      | c :: cs =>
          if c = '"' then
            match parseStrBody [] cs with
            | .error e => .error e
            | .ok (k, u1) =>
                match dropWs u1 with
                | [] => .error "unexpected end of input"
                | c2 :: u2 =>
                    if c2 = ':' then
                      match parseVal fuel (dropWs u2) with
                      | .error e => .error e
                      | .ok (v, u3) =>
                          match dropWs u3 with
                          | [] => .error "unexpected end of input"
                          | c3 :: u4 =>
                              if c3 = ',' then parseMembers fuel (insertProp acc k v) (dropWs u4)
                              else if c3 = '\x7d' then .ok (.obj (insertProp acc k v), u4)
                              else .error "expected comma or closing brace"
                    else .error "expected colon"
          else .error "expected string key"

/-- Parses an array body after the opening bracket (whitespace skipped). -/
def parseArrBody : Nat → List Char → Except String (JValue × List Char)
  | 0, _ => .error "input too deeply nested"
  | fuel + 1, l =>
      match l with
      | [] => .error "unexpected end of input"
      | c :: cs =>
          if c = ']' then .ok (.arr [], cs) else parseItems fuel [] (c :: cs)

/-- Parses the items of a non-empty array body. -/
def parseItems : Nat → List JValue → List Char → Except String (JValue × List Char)
  | 0, _, _ => .error "input too deeply nested"
  | fuel + 1, acc, l =>
      match parseVal fuel l with
      | .error e => .error e
      | .ok (v, u1) =>
          match dropWs u1 with
          | [] => .error "unexpected end of input"
          | c :: u2 =>
              if c = ',' then parseItems fuel (acc ++ [v]) (dropWs u2)
              else if c = ']' then .ok (.arr (acc ++ [v]), u2)
              else .error "expected comma or closing bracket"

end

/-- Top-level model of JSON.parse (on the integer-number fragment): parse
one value, allowing surrounding whitespace and requiring the whole input to
be consumed. -/
def jsonParse (s : String) : Except String JValue :=
  match parseVal (2 * s.length + 2) (dropWs s.toList) with
  | .error e => .error e
  | .ok (v, rest) => if dropWs rest = [] then .ok v else .error "unexpected trailing characters"

/-! ## JS string conversion and JSON.stringify -/

/-- Fuel-indexed model of JS template-string conversion (String(v)):
null prints as null, arrays join their elements with commas (null elements
print as empty), plain objects print as the object tag. -/
def jsToStringF : Nat → JValue → String
  | _, .null => "null"
  | _, .bool b => cond b "true" "false"
  | _, .num i => intRepr i
  | _, .str s => s
  | _, .obj _ => "[object Object]"
  | 0, .arr _ => ""
  | fuel + 1, .arr xs =>
      String.intercalate ","
        (xs.map fun x => match x with
          | .null => ""
          | v => jsToStringF fuel v)

/-- Size of a JValue, used only to seed the string-conversion fuel. -/
def jsize : JValue → Nat
  | .null | .bool _ | .num _ | .str _ => 1
  | .arr xs => 1 + jsizeL xs
  | .obj kvs => 1 + jsizeP kvs
where
  /-- Size of a list of values. -/
  jsizeL : List JValue → Nat
    | [] => 0
    | x :: xs => jsize x + jsizeL xs
  /-- Size of a property list. -/
  jsizeP : List (String × JValue) → Nat
    | [] => 0
    | (_, v) :: kvs => jsize v + jsizeP kvs

/-- JS template-string conversion of a value. -/
def jsToString (v : JValue) : String := jsToStringF (jsize v) v

/-- JSON string escaping of one character, as produced by JSON.stringify. -/
def escapeChar (c : Char) : String :=
  if c = '"' then "\\\""
  else if c = '\\' then "\\\\"
  else if c = '\n' then "\\n"
  else if c = '\r' then "\\r"
  else if c = '\t' then "\\t"
  else if c = '\x08' then "\\b"
  else if c = '\x0c' then "\\f"
  else if c.toNat < 32 then
    "\\u00" ++ String.mk [digitChar (c.toNat / 16), hexLetter (c.toNat % 16)]
  else String.singleton c
where
  /-- Lower-case hexadecimal digit character. -/
  hexLetter (d : Nat) : Char := if d < 10 then digitChar d else Char.ofNat (87 + d)

/-- A JSON string literal for the given text. -/
def quoteJSON (s : String) : String :=
  "\"" ++ String.join (s.toList.map escapeChar) ++ "\""

/-- Two-space indentation prefix at the given depth. -/
def indentStr (n : Nat) : String := String.join (List.replicate n "  ")

/-- Fuel-indexed model of JSON.stringify(v, null, 2). -/
def stringifyF : Nat → Nat → JValue → String
  | _, _, .null => "null"
  | _, _, .bool b => cond b "true" "false"
  | _, _, .num i => intRepr i
  | _, _, .str s => quoteJSON s
  | 0, _, _ => ""
  | _ + 1, _, .arr [] => "[]"
  | fuel + 1, ind, .arr (x :: xs) =>
      "[\n" ++
      String.intercalate ",\n"
        ((x :: xs).map fun e => indentStr (ind + 1) ++ stringifyF fuel (ind + 1) e) ++
      "\n" ++ indentStr ind ++ "]"
  | _ + 1, _, .obj [] => "\x7b\x7d"
  | fuel + 1, ind, .obj (kv :: kvs) =>
      "\x7b\n" ++
      String.intercalate ",\n"
        ((kv :: kvs).map fun p =>
          indentStr (ind + 1) ++ quoteJSON p.1 ++ ": " ++ stringifyF fuel (ind + 1) p.2) ++
      "\n" ++ indentStr ind ++ "\x7d"

/-- Model of JSON.stringify(v, null, 2). -/
def jsonStringify2 (v : JValue) : String := stringifyF (jsize v) 0 v

/-! ## Row inference (jsonType and the two rows computations) -/

/-- The jsonType helper of both files: the type tag inferred for a parsed
value (null, array, number, boolean, object checks in order, else string). -/
def jsonType : JValue → String
  | .null => "null"
  | .arr _ => "array"
  | .num _ => "number"
  | .bool _ => "boolean"
  | .obj _ => "object"
  | .str _ => "string"

/-- The stored row value: container values are replaced by the null
placeholder (value: type is object or array ? null : value). -/
def stripV (v : JValue) : JValue :=
  if jsonType v = "object" ∨ jsonType v = "array" then .null else v

/-- Row list computed by the inline editor from a parsed value (part_000
lines 50-61): one keyed row per own key of a plain object, otherwise a
single keyless row. -/
def rowsOfValue (parsed : JValue) : List NodeRow :=
  match parsed with
  | .obj kvs => kvs.map fun kv => { key := some kv.1, value := stripV kv.2, type := jsonType kv.2 }
  | _ => [{ key := none, value := stripV parsed, type := jsonType parsed }]

/-- The Row Model Parser: JSON.parse followed by row inference. -/
def rowParse (text : String) : Except String (List NodeRow) :=
  (jsonParse text).map rowsOfValue

/-- Own enumerable keys of a JS value paired with their values, modelling
Object.keys plus property access: objects list their properties, arrays
their indices as decimal strings, primitives have none. -/
def jsKeyValues : JValue → List (String × JValue)
  | .obj kvs => kvs
  | .arr xs => xs.enum.map fun p => (natRepr p.1, p.2)
  | _ => []

/-- Fallback row list of EditableNodeModal (lines 108-119): branch on the
node's primitivity, reading keys of the parsed value (Object.keys(parsed
or empty object)) in the non-primitive case. -/
def fallbackRowsModal (isPrim : Bool) (parsed : JValue) : List NodeRow :=
  if isPrim then [{ key := none, value := stripV parsed, type := jsonType parsed }]
  else jsKeyValues parsed |>.map fun kv =>
    { key := some kv.1, value := stripV kv.2, type := jsonType kv.2 }

/-! ## The Row Model Projector (getEditableString / normalizeNodeData) -/

/-- JS truthiness of a row key (row.key): false for an absent key and for
the empty string. -/
def rowKeyTruthy (r : NodeRow) : Bool :=
  match r.key with
  | some k => k ≠ ""
  | none => false

/-- The primitive-node test of both flows: text.length === 1 and the single
row's key is falsy. -/
def isLeafRows : List NodeRow → Bool
  | [r] => !(rowKeyTruthy r)
  | _ => false

/-- The single row's value of a leaf node (text[0].value). -/
def leafValue : List NodeRow → JValue
  | r :: _ => r.value
  | [] => .null

/-- The object built by the projector loop: each row with truthy key and
type not array/object is assigned into the object in order. -/
def buildStep (acc : List (String × JValue)) (r : NodeRow) : List (String × JValue) :=
  if r.type ≠ "array" ∧ r.type ≠ "object" then
    match r.key with
    | some k => if k ≠ "" then insertProp acc k r.value else acc
    | none => acc
  else acc

def buildObj (rows : List NodeRow) : List (String × JValue) :=
  rows.foldl buildStep []

/-- The Row Model Projector getEditableString (and the identical
normalizeNodeData): absent node prints as the empty object, a single
keyless-row node prints its bare value, any other node prints the
2-space-indented JSON of its primitive keyed rows. -/
def getEditableString (nodeData : Option NodeData) : String :=
  match nodeData with
  | none => "\x7b\x7d"
  | some nd =>
      if isLeafRows nd.text then jsToString (leafValue nd.text)
      else jsonStringify2 (.obj (buildObj nd.text))

/-- The jsonPathToString helper of part_000: the root path prints as the
dollar sentinel, every segment prints bracketed, numbers bare and strings
quoted. -/
def jsonPathToString (path : List JSeg) : String :=
  if path = [] then "$"
  else
    "$[" ++
    String.intercalate "]["
      (path.map fun seg => match seg with
        | .idx n => natRepr n
        | .key s => "\"" ++ s ++ "\"") ++
    "]"

/-! ## Path-addressed patching (structural model of jsonc-parser) -/

/-- Reads the value at a path, traversing object keys and array indices. -/
def jsonGet : JValue → List JSeg → Option JValue
  | v, [] => some v
  | v, .key k :: rest =>
      match v with
      | .obj kvs =>
          match lookupProp kvs k with
          | some child => jsonGet child rest
          | none => none
      | _ => none
  | v, .idx i :: rest =>
      match v with
      | .arr xs =>
          match xs[i]? with
          | some child => jsonGet child rest
          | none => none
      | _ => none

/-- Modelled from the spec: the Path-Addressed Patcher (the jsonc-parser
modify/applyEdits pair used by both flows, which is a third-party library
and not part of the repository sources).  Per spec section 4.3 it sets
(some value) or deletes (none) the location named by the path, resolving
object keys and array indices from the root, and fails atomically with a
resolution error when the path cannot be resolved (a missing intermediate
location or a non-container along the path); a set at the final key of a
resolved parent inserts or replaces, a delete of an absent final key is a
no-op.  Formatting preservation of the textual patch is outside the
structural model: the document is carried in parsed form. -/
def jsonModify (v : JValue) : List JSeg → Option JValue → Except String JValue
  | [], some nv => .ok nv
  | [], none => .error "cannot remove the document root"
  | .key k :: rest, nv =>
      match v with
      | .obj kvs =>
          match rest with
          | [] =>
              match nv with
              | some nvv => .ok (.obj (insertProp kvs k nvv))
              | none => .ok (.obj (removeProp kvs k))
          | _ :: _ =>
              match lookupProp kvs k with
              | some child => (jsonModify child rest nv).map (fun c => .obj (insertProp kvs k c))
              | none => .error "path not resolvable"
      | _ => .error "path not resolvable"
  | .idx i :: rest, nv =>
      match v with
      | .arr xs =>
          match xs[i]? with
          | some child =>
              match rest with
              | [] =>
                  match nv with
                  | some nvv => .ok (.arr (xs.set i nvv))
                  | none => .ok (.arr (xs.eraseIdx i))
              | _ :: _ => (jsonModify child rest nv).map (fun c => .arr (xs.set i c))
          | none => .error "path not resolvable"
      | _ => .error "path not resolvable"

/-! ## The two save handlers -/

/-- Editable keys of a node (lines 81-83): keys of rows whose type is not
array/object and whose key is truthy. -/
def editableKeys (rows : List NodeRow) : List String :=
  (rows.filter fun r => r.type ≠ "array" ∧ r.type ≠ "object" ∧ rowKeyTruthy r).filterMap
    (·.key)

/-- The new field map (line 85): the parsed value when it is a plain
object, else the empty map. -/
def newObjOf (parsed : JValue) : List (String × JValue) :=
  match parsed with
  | .obj kvs => kvs
  | _ => []

/-- The deduplicated key union of a field-set save (line 88). -/
def fieldKeys (rows : List NodeRow) (parsed : JValue) : List String :=
  jsUnique (editableKeys rows ++ (newObjOf parsed).map (·.1))

/-- The body of the field-set for loop: one edit per key, each applied to
the document produced by the previous edit, aborting on the first error as
the enclosing try does. -/
def applyEdits (path : List JSeg) (newObj : List (String × JValue)) :
    JValue → List String → Except String JValue
  | doc, [] => .ok doc
  | doc, k :: ks =>
      match jsonModify doc (path ++ [.key k]) (lookupProp newObj k) with
      | .error e => .error e
      | .ok d1 => applyEdits path newObj d1 ks

/-- The field-set patch phase (lines 80-97): for each key of the
deduplicated union, set it from the new object when present
(hasOwnProperty), delete it when absent. -/
def applyFieldSet (doc : JValue) (path : List JSeg) (rows : List NodeRow) (parsed : JValue) :
    Except String JValue :=
  applyEdits path (newObjOf parsed) doc (fieldKeys rows parsed)

/-- The patching phase of a save: whole-value replacement for a leaf node,
field-set patching otherwise. -/
def patchResult (nd : NodeData) (parsed : JValue) (doc : JValue) : Except String JValue :=
  if isLeafRows nd.text then jsonModify doc nd.path (some parsed)
  else applyFieldSet doc nd.path nd.text parsed

/-- Re-selection after a rebuild (lines 104-106): the first node whose path
serializes equal to the edited path, else the previous selection. -/
def reselect (nodes : List NodeData) (path : List JSeg) (old : Option NodeData) :
    Option NodeData :=
  match nodes.find? (fun n => n.path == path) with
  | some f => some f
  | none => old

/-- The handleSave of EditableNodeModal.tsx as a state transition.  The
graph rebuild that useJson.setJson triggers externally is passed in as the
rebuild function.  Parse failure records the error and changes nothing
else; with no node the handler only closes; patch success commits the new
document, replaces the node list by the rebuilt one and re-selects by path;
patch failure replaces only the selected node with rows computed from the
parsed value by the modal's own fallback.  Every non-error path closes the
editor. -/
def handleSaveModal (rebuild : JValue → List NodeData) (nodeData : Option NodeData)
    (text : String) (st : AppState) : AppState :=
  match jsonParse text with
  | .error e => { st with error := some e }
  | .ok parsed =>
      let st1 :=
        match nodeData with
        | none => st
        | some nd =>
            match patchResult nd parsed st.doc with
            | .ok newDoc =>
                let nodes := rebuild newDoc
                { st with doc := newDoc, nodes := nodes,
                          selected := reselect nodes nd.path st.selected }
            | .error _ =>
                { st with
                    selected := some { nd with
                      text := fallbackRowsModal (isLeafRows nd.text) parsed } }
      { st1 with editorOpen := false }

/-- The handleSave of the inline editor modal in part_000, differing from
EditableNodeModal only in that a successful patch also writes the
persisted-contents mirror (useFile.setContents) and that the fallback row
list is computed up front from the parsed value alone (lines 50-61). -/
def handleSaveInline (rebuild : JValue → List NodeData) (nodeData : Option NodeData)
    (text : String) (st : AppState) : AppState :=
  match jsonParse text with
  | .error e => { st with error := some e }
  | .ok parsed =>
      let rows := rowsOfValue parsed
      let st1 :=
        match nodeData with
        | none => st
        | some nd =>
            match patchResult nd parsed st.doc with
            | .ok newDoc =>
                let nodes := rebuild newDoc
                { st with doc := newDoc, nodes := nodes,
                          fileContents := some newDoc,
                          selected := reselect nodes nd.path st.selected }
            | .error _ => { st with selected := some { nd with text := rows } }
      { st1 with editorOpen := false }

/-! ## Claim-side definitions and shared witness fixtures -/

/-- Leaf test as worded by claim C6: exactly one row whose key is absent
(an empty-string key does not count as absent). -/
def claimIsLeaf : List NodeRow → Bool
  | [r] => r.key.isNone
  | _ => false

/-- Mapping as worded by claim C6: every keyed row whose type is not in
the object/array set contributes its key, the empty-string key included. -/
def claimBuildObj (rows : List NodeRow) : List (String × JValue) :=
  rows.foldl
    (fun acc r =>
      if r.type ≠ "array" ∧ r.type ≠ "object" then
        match r.key with
        | some k => insertProp acc k r.value
        | none => acc
      else acc)
    []

/-- Projector as worded by claim C6, for comparison with the code's
getEditableString. -/
def projectClaim (nodeData : Option NodeData) : String :=
  match nodeData with
  | none => "\x7b\x7d"
  | some nd =>
      if claimIsLeaf nd.text then jsToString (leafValue nd.text)
      else jsonStringify2 (.obj (claimBuildObj nd.text))

/-- Witness fixture: a document with one object field user holding the
primitive fields a and b. -/
def stFix : AppState :=
  ⟨.obj [("user", .obj [("a", .num 5), ("b", .num 2)])], [], none, none, none, true⟩

/-- Witness fixture: the node at path user with editable rows a and b. -/
def ndFix : NodeData :=
  ⟨[.key "user"], [⟨some "a", .num 5, "number"⟩, ⟨some "b", .num 2, "number"⟩]⟩

/-- Witness fixture: a rebuild that always yields one node at path user. -/
def rbFix : JValue → List NodeData := fun _ => [⟨[.key "user"], []⟩]

/-- Witness fixture: a primitive (number) document, on which every keyed
patch fails to resolve. -/
def stBad : AppState := ⟨.num 0, [], none, none, none, true⟩

/-- Witness fixture: a root non-leaf node with one editable row. -/
def ndBad : NodeData := ⟨[], [⟨some "a", .num 1, "number"⟩]⟩

/-! ## Lemmas about the association-list primitives -/

theorem lookup_insert_self (kvs : List (String × JValue)) (k : String) (v : JValue) :
    lookupProp (insertProp kvs k v) k = some v := by
  induction kvs with
  | nil => simp [insertProp, lookupProp]
  | cons p rest ih =>
      obtain ⟨k0, v0⟩ := p
      by_cases h : k0 = k
      · simp [insertProp, h, lookupProp]
      · simp [insertProp, h, lookupProp, ih]

theorem lookup_insert_other (kvs : List (String × JValue)) (k k' : String) (v : JValue)
    (hne : k' ≠ k) : lookupProp (insertProp kvs k v) k' = lookupProp kvs k' := by
  induction kvs with
  | nil =>
      simp only [insertProp, lookupProp]
      rw [if_neg (fun h => hne h.symm)]
  | cons p rest ih =>
      obtain ⟨k0, v0⟩ := p
      by_cases h : k0 = k
      · subst h
        rw [insertProp, if_pos rfl, lookupProp, lookupProp,
          if_neg (fun h' => hne h'.symm), if_neg (fun h' => hne h'.symm)]
      · rw [insertProp, if_neg h, lookupProp, lookupProp]
        by_cases h2 : k0 = k'
        · rw [if_pos h2, if_pos h2]
        · rw [if_neg h2, if_neg h2, ih]

theorem lookup_remove_self (kvs : List (String × JValue)) (k : String) :
    lookupProp (removeProp kvs k) k = none := by
  induction kvs with
  | nil => simp [removeProp, lookupProp]
  | cons p rest ih =>
      obtain ⟨k0, v0⟩ := p
      by_cases h : k0 = k
      · rw [removeProp, if_pos h]; exact ih
      · rw [removeProp, if_neg h, lookupProp, if_neg h]; exact ih

theorem lookup_remove_other (kvs : List (String × JValue)) (k k' : String) (hne : k' ≠ k) :
    lookupProp (removeProp kvs k) k' = lookupProp kvs k' := by
  induction kvs with
  | nil => simp [removeProp, lookupProp]
  | cons p rest ih =>
      obtain ⟨k0, v0⟩ := p
      by_cases h : k0 = k
      · subst h
        rw [removeProp, if_pos rfl, lookupProp, if_neg (fun h' => hne h'.symm)]
        exact ih
      · rw [removeProp, if_neg h, lookupProp, lookupProp]
        by_cases h2 : k0 = k'
        · rw [if_pos h2, if_pos h2]
        · rw [if_neg h2, if_neg h2, ih]

/-! ## Lemmas about jsUnique -/

theorem mem_jsUniqueAux (l : List String) :
    ∀ (seen : List String) (x : String), x ∈ jsUniqueAux seen l ↔ x ∈ l ∧ x ∉ seen := by
  induction l with
  | nil => intro seen x; simp [jsUniqueAux]
  | cons a l ih =>
      intro seen x
      by_cases h : a ∈ seen
      · rw [jsUniqueAux, if_pos h, ih]
        constructor
        · rintro ⟨hx, hs⟩; exact ⟨List.mem_cons_of_mem _ hx, hs⟩
        · rintro ⟨hx, hs⟩
          rcases List.mem_cons.mp hx with rfl | hx
          · exact absurd h hs
          · exact ⟨hx, hs⟩
      · rw [jsUniqueAux, if_neg h]
        constructor
        · intro hmem
          rcases List.mem_cons.mp hmem with rfl | hmem2
          · exact ⟨List.mem_cons_self _ _, h⟩
          · obtain ⟨hx, hs⟩ := (ih _ _).mp hmem2
            exact ⟨List.mem_cons_of_mem _ hx, fun hx2 => hs (List.mem_cons_of_mem _ hx2)⟩
        · rintro ⟨hx, hs⟩
          rcases List.mem_cons.mp hx with rfl | hx2
          · exact List.mem_cons_self _ _
          · by_cases hxa : x = a
            · subst hxa; exact List.mem_cons_self _ _
            · refine List.mem_cons_of_mem _ ((ih _ _).mpr ⟨hx2, ?_⟩)
              intro hmem3
              rcases List.mem_cons.mp hmem3 with rfl | hmem4
              · exact hxa rfl
              · exact hs hmem4

theorem mem_jsUnique (l : List String) (x : String) : x ∈ jsUnique l ↔ x ∈ l := by
  simp [jsUnique, mem_jsUniqueAux]

theorem jsUniqueAux_nodup (l : List String) :
    ∀ seen : List String, (jsUniqueAux seen l).Nodup := by
  induction l with
  | nil => intro seen; simp [jsUniqueAux]
  | cons a l ih =>
      intro seen
      by_cases h : a ∈ seen
      · rw [jsUniqueAux, if_pos h]; exact ih seen
      · rw [jsUniqueAux, if_neg h]
        refine List.nodup_cons.mpr ⟨fun hmem => ?_, ih (a :: seen)⟩
        exact ((mem_jsUniqueAux l (a :: seen) a).mp hmem).2 (List.mem_cons_self a seen)

theorem jsUnique_nodup (l : List String) : (jsUnique l).Nodup := jsUniqueAux_nodup l []

/-! ## Lemmas about the structural patcher -/

theorem jsonModify_get_self (p : List JSeg) :
    ∀ (v v' : JValue) (k : String) (nv : Option JValue),
      jsonModify v (p ++ [.key k]) nv = .ok v' → jsonGet v' (p ++ [.key k]) = nv := by
  induction p with
  | nil =>
      intro v v' k nv h
      simp only [List.nil_append] at h ⊢
      cases v with
      | obj kvs =>
          cases nv with
          | some nvv =>
              simp only [jsonModify, Except.ok.injEq] at h
              subst h
              simp [jsonGet, lookup_insert_self]
          | none =>
              simp only [jsonModify, Except.ok.injEq] at h
              subst h
              simp [jsonGet, lookup_remove_self]
      | null => simp [jsonModify] at h
      | bool b => simp [jsonModify] at h
      | num n => simp [jsonModify] at h
      | str s => simp [jsonModify] at h
      | arr xs => simp [jsonModify] at h
  | cons s p ih =>
      intro v v' k nv h
      obtain ⟨s1, rest1, hq⟩ : ∃ s1 rest1, p ++ [JSeg.key k] = s1 :: rest1 := by
        cases p <;> exact ⟨_, _, rfl⟩
      cases s with
      | key k0 =>
          cases v with
          | obj kvs =>
              rw [List.cons_append, hq] at h
              cases hl : lookupProp kvs k0 with
              | none => simp [jsonModify, hl] at h
              | some child =>
                  cases hm : jsonModify child (s1 :: rest1) nv with
                  | error e => simp [jsonModify, hl, hm, Except.map] at h
                  | ok c' =>
                      simp only [jsonModify, hl, hm, Except.map, Except.ok.injEq] at h
                      subst h
                      simp only [jsonGet, lookup_insert_self]
                      exact ih child c' k nv (by rw [hq]; exact hm)
          | null => rw [List.cons_append, hq] at h; simp [jsonModify] at h
          | bool b => rw [List.cons_append, hq] at h; simp [jsonModify] at h
          | num n => rw [List.cons_append, hq] at h; simp [jsonModify] at h
          | str s2 => rw [List.cons_append, hq] at h; simp [jsonModify] at h
          | arr xs => rw [List.cons_append, hq] at h; simp [jsonModify] at h
      | idx i =>
          cases v with
          | arr xs =>
              rw [List.cons_append, hq] at h
              cases hl : xs[i]? with
              | none => simp [jsonModify, hl] at h
              | some child =>
                  have hlen : i < xs.length := by
                    by_contra hge
                    rw [List.getElem?_eq_none (Nat.le_of_not_lt hge)] at hl
                    cases hl
                  cases hm : jsonModify child (s1 :: rest1) nv with
                  | error e => simp [jsonModify, hl, hm, Except.map] at h
                  | ok c' =>
                      simp only [jsonModify, hl, hm, Except.map, Except.ok.injEq] at h
                      subst h
                      simp only [jsonGet, List.getElem?_set_eq_of_lt _ hlen]
                      exact ih child c' k nv (by rw [hq]; exact hm)
          | null => rw [List.cons_append, hq] at h; simp [jsonModify] at h
          | bool b => rw [List.cons_append, hq] at h; simp [jsonModify] at h
          | num n => rw [List.cons_append, hq] at h; simp [jsonModify] at h
          | str s2 => rw [List.cons_append, hq] at h; simp [jsonModify] at h
          | obj kvs => rw [List.cons_append, hq] at h; simp [jsonModify] at h

theorem jsonModify_get_other (p : List JSeg) :
    ∀ (v v' : JValue) (k k' : String) (nv : Option JValue), k' ≠ k →
      jsonModify v (p ++ [.key k]) nv = .ok v' →
      jsonGet v' (p ++ [.key k']) = jsonGet v (p ++ [.key k']) := by
  induction p with
  | nil =>
      intro v v' k k' nv hne h
      simp only [List.nil_append] at h ⊢
      cases v with
      | obj kvs =>
          cases nv with
          | some nvv =>
              simp only [jsonModify, Except.ok.injEq] at h
              subst h
              simp only [jsonGet, lookup_insert_other kvs k k' nvv hne]
          | none =>
              simp only [jsonModify, Except.ok.injEq] at h
              subst h
              simp only [jsonGet, lookup_remove_other kvs k k' hne]
      | null => simp [jsonModify] at h
      | bool b => simp [jsonModify] at h
      | num n => simp [jsonModify] at h
      | str s => simp [jsonModify] at h
      | arr xs => simp [jsonModify] at h
  | cons s p ih =>
      intro v v' k k' nv hne h
      obtain ⟨s1, rest1, hq⟩ : ∃ s1 rest1, p ++ [JSeg.key k] = s1 :: rest1 := by
        cases p <;> exact ⟨_, _, rfl⟩
      cases s with
      | key k0 =>
          cases v with
          | obj kvs =>
              rw [List.cons_append, hq] at h
              cases hl : lookupProp kvs k0 with
              | none => simp [jsonModify, hl] at h
              | some child =>
                  cases hm : jsonModify child (s1 :: rest1) nv with
                  | error e => simp [jsonModify, hl, hm, Except.map] at h
                  | ok c' =>
                      simp only [jsonModify, hl, hm, Except.map, Except.ok.injEq] at h
                      subst h
                      simp only [List.cons_append, jsonGet, lookup_insert_self, hl]
                      exact ih child c' k k' nv hne (by rw [hq]; exact hm)
          | null => rw [List.cons_append, hq] at h; simp [jsonModify] at h
          | bool b => rw [List.cons_append, hq] at h; simp [jsonModify] at h
          | num n => rw [List.cons_append, hq] at h; simp [jsonModify] at h
          | str s2 => rw [List.cons_append, hq] at h; simp [jsonModify] at h
          | arr xs => rw [List.cons_append, hq] at h; simp [jsonModify] at h
      | idx i =>
          cases v with
          | arr xs =>
              rw [List.cons_append, hq] at h
              cases hl : xs[i]? with
              | none => simp [jsonModify, hl] at h
              | some child =>
                  have hlen : i < xs.length := by
                    by_contra hge
                    rw [List.getElem?_eq_none (Nat.le_of_not_lt hge)] at hl
                    cases hl
                  cases hm : jsonModify child (s1 :: rest1) nv with
                  | error e => simp [jsonModify, hl, hm, Except.map] at h
                  | ok c' =>
                      simp only [jsonModify, hl, hm, Except.map, Except.ok.injEq] at h
                      subst h
                      simp only [List.cons_append, jsonGet,
                        List.getElem?_set_eq_of_lt _ hlen, hl]
                      exact ih child c' k k' nv hne (by rw [hq]; exact hm)
          | null => rw [List.cons_append, hq] at h; simp [jsonModify] at h
          | bool b => rw [List.cons_append, hq] at h; simp [jsonModify] at h
          | num n => rw [List.cons_append, hq] at h; simp [jsonModify] at h
          | str s2 => rw [List.cons_append, hq] at h; simp [jsonModify] at h
          | obj kvs => rw [List.cons_append, hq] at h; simp [jsonModify] at h

theorem applyEdits_preserve (path : List JSeg) (newObj : List (String × JValue)) (q : String) :
    ∀ (keys : List String) (doc doc' : JValue), q ∉ keys →
      applyEdits path newObj doc keys = .ok doc' →
      jsonGet doc' (path ++ [.key q]) = jsonGet doc (path ++ [.key q]) := by
  intro keys
  induction keys with
  | nil =>
      intro doc doc' _ h
      simp only [applyEdits, Except.ok.injEq] at h
      subst h; rfl
  | cons k ks ih =>
      intro doc doc' hq h
      cases hstep : jsonModify doc (path ++ [.key k]) (lookupProp newObj k) with
      | error e =>
          simp only [applyEdits, hstep] at h
          exact Except.noConfusion h
      | ok d1 =>
          simp only [applyEdits, hstep] at h
          have hq1 : q ∉ ks := fun hmem => hq (List.mem_cons_of_mem _ hmem)
          have hqk : q ≠ k := fun heq => hq (heq ▸ List.mem_cons_self _ _)
          rw [ih d1 doc' hq1 h]
          exact jsonModify_get_other path doc d1 k q _ hqk hstep

theorem applyEdits_get (path : List JSeg) (newObj : List (String × JValue)) :
    ∀ (keys : List String) (doc doc' : JValue), keys.Nodup →
      applyEdits path newObj doc keys = .ok doc' →
      ∀ k ∈ keys, jsonGet doc' (path ++ [.key k]) = lookupProp newObj k := by
  intro keys
  induction keys with
  | nil => intro doc doc' _ _ k hk; cases hk
  | cons k0 ks ih =>
      intro doc doc' hnd h k hk
      cases hstep : jsonModify doc (path ++ [.key k0]) (lookupProp newObj k0) with
      | error e =>
          simp only [applyEdits, hstep] at h
          exact Except.noConfusion h
      | ok d1 =>
          simp only [applyEdits, hstep] at h
          obtain ⟨hk0, hndks⟩ := List.nodup_cons.mp hnd
          rcases List.mem_cons.mp hk with rfl | hkks
          · rw [applyEdits_preserve path newObj k ks d1 doc' hk0 h]
            exact jsonModify_get_self path doc d1 k _ hstep
          · exact ih d1 doc' hndks h k hkks

/-! ## Decimal parsing round-trip -/

theorem natDigitsAux_eq (fuel : Nat) :
    ∀ n : Nat, n ≤ fuel → natDigitsAux fuel n = Nat.digits 10 n := by
  induction fuel with
  | zero =>
      intro n hn
      interval_cases n
      simp [natDigitsAux]
  | succ fuel ih =>
      intro n hn
      match n with
      | 0 => simp [natDigitsAux]
      | m + 1 =>
          rw [natDigitsAux, Nat.digits_def' (by norm_num : 1 < 10) (Nat.succ_pos m)]
          congr 1
          refine ih ((m + 1) / 10) ?_
          have := Nat.div_lt_self (Nat.succ_pos m) (by norm_num : 1 < 10)
          omega

theorem digitChar_isDigit {d : Nat} (h : d < 10) : (digitChar d).isDigit = true := by
  interval_cases d <;> decide

theorem digitChar_toNat {d : Nat} (h : d < 10) : (digitChar d).toNat = 48 + d := by
  interval_cases d <;> decide

theorem digitChar_ne_minus {d : Nat} (h : d < 10) : digitChar d ≠ '-' := by
  interval_cases d <;> decide

theorem digitChar_not_ws {d : Nat} (h : d < 10) :
    decide (digitChar d = ' ' ∨ digitChar d = '\n' ∨ digitChar d = '\t' ∨ digitChar d = '\r')
      = false := by
  interval_cases d <;> decide

theorem readDigits_map (ds : List Nat) :
    ∀ acc : Nat, (∀ d ∈ ds, d < 10) →
      readDigits acc (ds.map digitChar) = (ds.foldl (fun a d => 10 * a + d) acc, []) := by
  induction ds with
  | nil => intro acc _; simp [readDigits]
  | cons d ds ih =>
      intro acc hd
      have hd10 : d < 10 := hd d (List.mem_cons_self _ _)
      rw [List.map_cons, readDigits, if_pos (digitChar_isDigit hd10), digitChar_toNat hd10]
      have hrest : ∀ x ∈ ds, x < 10 := fun x hx => hd x (List.mem_cons_of_mem _ hx)
      rw [ih _ hrest, List.foldl_cons]
      congr 2
      omega

theorem foldl_digits_eq (l : List Nat) :
    ∀ a : Nat, l.foldl (fun x d => 10 * x + d) a = a * 10 ^ l.length + Nat.ofDigits 10 l.reverse := by
  induction l with
  | nil => intro a; simp [Nat.ofDigits]
  | cons x l ih =>
      intro a
      rw [List.foldl_cons, ih, List.reverse_cons, Nat.ofDigits_append]
      simp only [Nat.ofDigits_singleton, List.length_reverse, List.length_cons, pow_succ]
      ring

theorem readDigits_natReprChars (n : Nat) : readDigits 0 (natReprChars n) = (n, []) := by
  by_cases h : n = 0
  · subst h; rfl
  · rw [natReprChars, if_pos (Nat.pos_of_ne_zero h), natDigitsAux_eq n n le_rfl]
    have hds : ∀ d ∈ (Nat.digits 10 n).reverse, d < 10 := fun d hd =>
      Nat.digits_lt_base (by norm_num) (List.mem_reverse.mp hd)
    rw [readDigits_map _ 0 hds, foldl_digits_eq]
    simp [List.reverse_reverse, Nat.ofDigits_digits]

theorem natReprChars_shape (n : Nat) :
    ∃ d rest, d < 10 ∧ natReprChars n = digitChar d :: rest := by
  by_cases h : n = 0
  · subst h; exact ⟨0, [], by norm_num, rfl⟩
  · rw [natReprChars, if_pos (Nat.pos_of_ne_zero h), natDigitsAux_eq n n le_rfl]
    have hne : (Nat.digits 10 n).reverse ≠ [] := by
      simp [Nat.digits_ne_nil_iff_ne_zero.mpr h]
    rcases hrev : (Nat.digits 10 n).reverse with _ | ⟨d, ds⟩
    · exact absurd hrev hne
    · refine ⟨d, ds.map digitChar, ?_, by simp⟩
      have hmemrev : d ∈ (Nat.digits 10 n).reverse := by
        rw [hrev]; exact List.mem_cons_self _ _
      exact Nat.digits_lt_base (by norm_num) (List.mem_reverse.mp hmemrev)

theorem readNat_natReprChars (n : Nat) : readNat (natReprChars n) = .ok (n, []) := by
  obtain ⟨d, rest, hd10, hshape⟩ := natReprChars_shape n
  rw [hshape, readNat, if_pos (digitChar_isDigit hd10), ← hshape, readDigits_natReprChars]

theorem parseNumber_natReprChars (n : Nat) :
    parseNumber (natReprChars n) = .ok (.num (n : Int), []) := by
  obtain ⟨d, rest, hd10, hshape⟩ := natReprChars_shape n
  rw [hshape, parseNumber, if_neg (digitChar_ne_minus hd10), ← hshape, readNat_natReprChars]
  rfl

theorem dropWs_natReprChars (n : Nat) : dropWs (natReprChars n) = natReprChars n := by
  obtain ⟨d, rest, hd10, hshape⟩ := natReprChars_shape n
  rw [hshape, dropWs, List.dropWhile_cons]
  simp only [digitChar_not_ws hd10, Bool.false_eq_true, if_false]

theorem parseVal_natReprChars (fuel n : Nat) :
    parseVal (fuel + 1) (natReprChars n) = .ok (.num (n : Int), []) := by
  obtain ⟨d, rest, hd10, hshape⟩ := natReprChars_shape n
  rw [hshape, parseVal, if_pos (Or.inr (digitChar_isDigit hd10)), ← hshape]
  exact parseNumber_natReprChars n

theorem jsonParse_natRepr (n : Nat) : jsonParse (natRepr n) = .ok (.num (n : Int)) := by
  have hlist : (natRepr n).toList = natReprChars n := rfl
  rw [jsonParse, hlist, dropWs_natReprChars,
    show 2 * (natRepr n).length + 2 = (2 * (natRepr n).length + 1) + 1 from rfl,
    parseVal_natReprChars]
  rfl

theorem jsonParse_intRepr (i : Int) : jsonParse (intRepr i) = .ok (.num i) := by
  by_cases hneg : i < 0
  · rw [intRepr, if_pos hneg]
    have hlist : ("-" ++ natRepr i.natAbs).toList = '-' :: natReprChars i.natAbs := by
      show ("-" ++ natRepr i.natAbs).data = '-' :: natReprChars i.natAbs
      rw [String.data_append]
      rfl
    have hskip : dropWs ('-' :: natReprChars i.natAbs) = '-' :: natReprChars i.natAbs := by
      rw [dropWs, List.dropWhile_cons, if_neg (by decide)]
    rw [jsonParse, hlist, hskip,
      show 2 * ("-" ++ natRepr i.natAbs).length + 2
          = (2 * ("-" ++ natRepr i.natAbs).length + 1) + 1 from rfl,
      parseVal, if_pos (Or.inl rfl), parseNumber, if_pos rfl, readNat_natReprChars]
    have hval : Except.ok (ε := String) (JValue.num (-(i.natAbs : Int)))
        = Except.ok (ε := String) (JValue.num i) := by
      rw [show (-(i.natAbs : Int)) = i by omega]
    exact hval
  · rw [intRepr, if_neg hneg, jsonParse_natRepr, Int.toNat_of_nonneg (not_lt.mp hneg)]

theorem lookup_buildObj_none (k : String) (rows : List NodeRow) :
    ∀ acc : List (String × JValue),
      (∀ r ∈ rows, r.key = some k → (r.type = "array" ∨ r.type = "object" ∨ k = "")) →
      lookupProp acc k = none →
      lookupProp (rows.foldl buildStep acc) k = none := by
  induction rows with
  | nil => intro acc _ hacc; exact hacc
  | cons r rows ih =>
      intro acc hrows hacc
      rw [List.foldl_cons]
      refine ih (buildStep acc r)
        (fun u2 h2 => hrows u2 (List.mem_cons_of_mem _ h2)) ?_
      by_cases hty : r.type ≠ "array" ∧ r.type ≠ "object"
      · cases hk : r.key with
        | none => simp only [buildStep, if_pos hty, hk]; exact hacc
        | some k0 =>
            simp only [buildStep, if_pos hty, hk]
            by_cases hk0 : k0 ≠ ""
            · rw [if_pos hk0]
              have hne : k ≠ k0 := by
                intro heq
                subst heq
                rcases hrows r (List.mem_cons_self _ _) hk with h1 | h1 | h1
                · exact hty.1 h1
                · exact hty.2 h1
                · exact hk0 h1
              rw [lookup_insert_other _ _ _ _ hne]
              exact hacc
            · rw [if_neg hk0]; exact hacc
      · simp only [buildStep, if_neg hty]; exact hacc

/-! ## Claim theorems -/

/-- C1 counterexample: for the string primitive hello, the claim predicts
that parsing the projector's leaf output yields back the same keyless
string row; in fact the projector emits the bare unquoted text hello,
which the parser rejects, so the claimed round-trip equation fails. -/
theorem claim1_counterexample :
    rowParse (getEditableString (some ⟨[], [⟨none, JValue.str "hello", "string"⟩]⟩)) ≠
      Except.ok [⟨none, JValue.str "hello", "string"⟩] := by
  intro h
  rw [show rowParse (getEditableString (some ⟨[], [⟨none, JValue.str "hello", "string"⟩]⟩))
      = Except.error "unexpected token" from rfl] at h
  exact Except.noConfusion h

/-- C1 (amended): the leaf round-trip parse(project(single keyless row v))
= that same row holds for every primitive v that is not a string (null,
booleans and numbers); a string leaf projects to its bare unquoted text,
which does not parse back to the same string row. -/
theorem claim1_leaf_roundtrip (v : JValue) (p : List JSeg)
    (hprim : v = JValue.null ∨ (∃ b, v = JValue.bool b) ∨ (∃ i, v = JValue.num i)) :
    rowParse (getEditableString (some ⟨p, [⟨none, v, jsonType v⟩]⟩)) =
      Except.ok [⟨none, v, jsonType v⟩] := by
  rcases hprim with rfl | ⟨b, rfl⟩ | ⟨i, rfl⟩
  · rfl
  · cases b <;> rfl
  · have hged : getEditableString (some ⟨p, [⟨none, JValue.num i, jsonType (JValue.num i)⟩]⟩)
        = intRepr i := rfl
    rw [rowParse, hged, jsonParse_intRepr]
    rfl

/-- Witness for claim1_leaf_roundtrip at the number 42 and the empty path. -/
theorem claim1_leaf_roundtrip_witness :
    rowParse (getEditableString (some ⟨[], [⟨none, JValue.num 42, "number"⟩]⟩)) =
      Except.ok [⟨none, JValue.num 42, "number"⟩] :=
  claim1_leaf_roundtrip (JValue.num 42) [] (Or.inr (Or.inr ⟨42, rfl⟩))

/-- C6 counterexample: on the node with the single row keyed by the empty
string, the code treats the falsy key as no key and projects the bare leaf
value 1, while the claim (leaf only when the key is absent; every keyed
non-container row enters the mapping) predicts the one-field mapping
text. -/
theorem claim6_counterexample :
    getEditableString (some ⟨[], [⟨some "", JValue.num 1, "number"⟩]⟩) = "1" ∧
    projectClaim (some ⟨[], [⟨some "", JValue.num 1, "number"⟩]⟩) = "\x7b\n  \"\": 1\n\x7d" ∧
    getEditableString (some ⟨[], [⟨some "", JValue.num 1, "number"⟩]⟩) ≠
      projectClaim (some ⟨[], [⟨some "", JValue.num 1, "number"⟩]⟩) := by
  refine ⟨rfl, rfl, ?_⟩
  intro h
  rw [show getEditableString (some ⟨[], [⟨some "", JValue.num 1, "number"⟩]⟩) = "1" from rfl,
    show projectClaim (some ⟨[], [⟨some "", JValue.num 1, "number"⟩]⟩)
      = "\x7b\n  \"\": 1\n\x7d" from rfl] at h
  exact absurd h (by decide)

/-- C6 (amended): the projector is a pure function of the node; an absent
node projects to the empty-object text; a node whose single row has a falsy
key (absent or empty string) projects to the bare textual form of that
row's value; every other node projects to the 2-space pretty-printed JSON
of the mapping built by inserting, in row order, each row with a truthy key
and type not in the object/array set; a key carried only by container-typed
rows (or only as the empty string) never appears in that mapping. -/
theorem claim6_projector (nd : NodeData) :
    getEditableString none = "\x7b\x7d" ∧
    (isLeafRows nd.text = true →
      getEditableString (some nd) = jsToString (leafValue nd.text)) ∧
    (isLeafRows nd.text = false →
      getEditableString (some nd) = jsonStringify2 (JValue.obj (buildObj nd.text)) ∧
      ∀ k, (∀ r ∈ nd.text, r.key = some k →
              (r.type = "array" ∨ r.type = "object" ∨ k = "")) →
        lookupProp (buildObj nd.text) k = none) := by
  refine ⟨rfl, fun hleaf => ?_, fun hnl => ⟨?_, fun k hk => ?_⟩⟩
  · rw [getEditableString, if_pos hleaf]
  · rw [getEditableString, if_neg (by simp [hnl])]
  · exact lookup_buildObj_none k nd.text [] hk rfl

/-- Witness for claim6_projector at a node with one string row and one
object row sharing no key: the object row's key o is absent from the
mapping. -/
theorem claim6_projector_witness :
    getEditableString (some ⟨[], [⟨some "a", JValue.str "x", "string"⟩,
        ⟨some "o", JValue.null, "object"⟩]⟩) =
      jsonStringify2 (JValue.obj (buildObj [⟨some "a", JValue.str "x", "string"⟩,
        ⟨some "o", JValue.null, "object"⟩])) ∧
    lookupProp (buildObj [⟨some "a", JValue.str "x", "string"⟩,
        ⟨some "o", JValue.null, "object"⟩]) "o" = none := by
  have h := claim6_projector ⟨[], [⟨some "a", JValue.str "x", "string"⟩,
    ⟨some "o", JValue.null, "object"⟩]⟩
  refine ⟨(h.2.2 rfl).1, (h.2.2 rfl).2 "o" ?_⟩
  intro r hr hkey
  rcases List.mem_cons.mp hr with rfl | hr2
  · exact absurd hkey (by decide)
  · rcases List.mem_cons.mp hr2 with rfl | hr3
    · exact Or.inr (Or.inl rfl)
    · exact absurd hr3 (List.not_mem_nil _)

/-- C7: row inference of the Row Model Parser: on every successfully
parsed text, a non-array object yields one row per own key with the
documented type inference and the null placeholder for container values,
and any other value yields exactly one keyless row under the same
inference. -/
theorem claim7_row_inference (text : String) (v : JValue) (h : jsonParse text = .ok v) :
    rowParse text = .ok (rowsOfValue v) ∧
    (∀ kvs, v = JValue.obj kvs →
      rowsOfValue v = kvs.map fun kv =>
        { key := some kv.1, value := stripV kv.2, type := jsonType kv.2 }) ∧
    ((∀ kvs, v ≠ JValue.obj kvs) →
      rowsOfValue v = [{ key := none, value := stripV v, type := jsonType v }]) ∧
    (jsonType JValue.null = "null" ∧ (∀ xs, jsonType (JValue.arr xs) = "array") ∧
      (∀ i, jsonType (JValue.num i) = "number") ∧
      (∀ b, jsonType (JValue.bool b) = "boolean") ∧
      (∀ kvs, jsonType (JValue.obj kvs) = "object") ∧
      (∀ s, jsonType (JValue.str s) = "string")) ∧
    (∀ w : JValue, jsonType w = "object" ∨ jsonType w = "array" → stripV w = JValue.null) := by
  refine ⟨by rw [rowParse, h]; rfl, ?_, ?_,
    ⟨rfl, fun _ => rfl, fun _ => rfl, fun _ => rfl, fun _ => rfl, fun _ => rfl⟩, ?_⟩
  · rintro kvs rfl; rfl
  · intro hno
    cases v with
    | obj kvs => exact absurd rfl (hno kvs)
    | null => rfl
    | bool b => rfl
    | num i => rfl
    | str s => rfl
    | arr xs => rfl
  · intro w hw
    rw [stripV, if_pos hw]

/-- Witness for claim7_row_inference at the array text, whose single row
carries the null placeholder and the array type. -/
theorem claim7_row_inference_witness :
    rowParse "[1]" = Except.ok [{ key := none, value := JValue.null, type := "array" }] := by
  have h := claim7_row_inference "[1]" (JValue.arr [JValue.num 1]) rfl
  rw [h.1]
  rfl

/-- C9: path label formatting of jsonPathToString: the empty path prints as
the dollar sentinel, every non-empty path prints each segment bracketed
(numeric segments bare, string segments quoted), and the documented example
prints as claimed. -/
theorem claim9_path_label :
    jsonPathToString [] = "$" ∧
    (∀ p : List JSeg, p ≠ [] → jsonPathToString p =
      "$[" ++ String.intercalate "]["
        (p.map fun seg => match seg with
          | .idx n => natRepr n
          | .key s => "\"" ++ s ++ "\"") ++ "]") ∧
    jsonPathToString [.key "customer", .idx 0, .key "id"] = "$[\"customer\"][0][\"id\"]" := by
  refine ⟨rfl, ?_, rfl⟩
  intro p hp
  rw [jsonPathToString, if_neg hp]

/-- Witness for claim9_path_label at a one-segment path. -/
theorem claim9_path_label_witness : jsonPathToString [.key "a"] = "$[\"a\"]" := by
  have h := claim9_path_label.2.1 [JSeg.key "a"] (by simp)
  rw [h]
  rfl

/-- C2: atomicity of a failing field-set save: when the patch phase of a
non-leaf save fails at some key, the canonical document after the save call
equals the document before it, in both editing flows — no per-key edit
computed in that call is committed. -/
theorem claim2_atomic_failure (rb : JValue → List NodeData) (nd : NodeData) (text : String)
    (st : AppState) (v : JValue) (e : String)
    (hp : jsonParse text = .ok v)
    (hleaf : isLeafRows nd.text = false)
    (hfail : applyFieldSet st.doc nd.path nd.text v = .error e) :
    (handleSaveModal rb (some nd) text st).doc = st.doc ∧
    (handleSaveInline rb (some nd) text st).doc = st.doc := by
  have hpr : patchResult nd v st.doc = .error e := by
    rw [patchResult, if_neg (by simp [hleaf])]
    exact hfail
  constructor
  · simp only [handleSaveModal, hp, hpr]
  · simp only [handleSaveInline, hp, hpr]

/-- Witness for claim2_atomic_failure: saving the empty object over a
one-row node against a primitive document fails to resolve the key path
and leaves the document untouched. -/
theorem claim2_atomic_failure_witness :
    (handleSaveModal rbFix (some ndBad) "\x7b\x7d" stBad).doc = stBad.doc :=
  (claim2_atomic_failure rbFix ndBad "\x7b\x7d" stBad (JValue.obj [])
    "path not resolvable" rfl rfl rfl).1

/-- C3: field-set save semantics: on a successful non-leaf save, the new
document is committed, the key set patched is exactly the deduplicated
union of the node's editable keys and the keys of the parsed object (the
empty map when the parsed value is not a plain object), and after the
sequential edits every union key present in the parsed object reads back
as its new value while every absent one reads back as nothing. -/
theorem claim3_fieldset (rb : JValue → List NodeData) (nd : NodeData) (text : String)
    (st : AppState) (v newDoc : JValue)
    (hp : jsonParse text = .ok v)
    (hleaf : isLeafRows nd.text = false)
    (hok : applyFieldSet st.doc nd.path nd.text v = .ok newDoc) :
    (handleSaveModal rb (some nd) text st).doc = newDoc ∧
    (∀ k, k ∈ fieldKeys nd.text v ↔
      (k ∈ editableKeys nd.text ∨ k ∈ (newObjOf v).map Prod.fst)) ∧
    (∀ k ∈ fieldKeys nd.text v,
      jsonGet newDoc (nd.path ++ [.key k]) = lookupProp (newObjOf v) k) := by
  refine ⟨?_, ?_, ?_⟩
  · have hpr : patchResult nd v st.doc = .ok newDoc := by
      rw [patchResult, if_neg (by simp [hleaf])]
      exact hok
    simp only [handleSaveModal, hp, hpr]
  · intro k
    rw [fieldKeys, mem_jsUnique, List.mem_append]
  · intro k hk
    exact applyEdits_get nd.path (newObjOf v) (fieldKeys nd.text v) st.doc newDoc
      (jsUnique_nodup _) hok k hk

/-- Witness for claim3_fieldset: saving the one-field object a:1 on the
node with prior editable keys a and b sets a to 1 and deletes b. -/
theorem claim3_fieldset_witness :
    jsonGet (handleSaveModal rbFix (some ndFix) "\x7b\"a\":1\x7d" stFix).doc
        (ndFix.path ++ [.key "a"]) = some (JValue.num 1) ∧
    jsonGet (handleSaveModal rbFix (some ndFix) "\x7b\"a\":1\x7d" stFix).doc
        (ndFix.path ++ [.key "b"]) = none := by
  have h := claim3_fieldset rbFix ndFix "\x7b\"a\":1\x7d" stFix
    (JValue.obj [("a", JValue.num 1)]) (JValue.obj [("user", JValue.obj [("a", JValue.num 1)])])
    rfl rfl rfl
  constructor
  · rw [h.1]
    exact h.2.2 "a" (by decide)
  · rw [h.1]
    exact h.2.2 "b" (by decide)

/-- C4: validation-error handling: a parse failure records the parser's
message as the session error and changes nothing else (the document is
untouched and the editor-open flag keeps its value), while every
successful parse leads to the editor being closed, in both flows. -/
theorem claim4_validation (rb : JValue → List NodeData) (nd : Option NodeData)
    (text : String) (st : AppState) :
    (∀ e, jsonParse text = .error e →
      handleSaveModal rb nd text st = { st with error := some e } ∧
      handleSaveInline rb nd text st = { st with error := some e }) ∧
    (∀ v, jsonParse text = .ok v →
      (handleSaveModal rb nd text st).editorOpen = false ∧
      (handleSaveInline rb nd text st).editorOpen = false) := by
  constructor
  · intro e he
    constructor
    · simp only [handleSaveModal, he]
    · simp only [handleSaveInline, he]
  · intro v hv
    constructor
    · simp only [handleSaveModal, hv]
    · simp only [handleSaveInline, hv]

/-- Witness for claim4_validation: an unparsable text keeps the state
intact apart from the recorded message, and a parsable one closes the
editor. -/
theorem claim4_validation_witness :
    handleSaveModal rbFix (some ndFix) "x" stFix
      = { stFix with error := some "unexpected token" } ∧
    (handleSaveModal rbFix (some ndFix) "1" stFix).editorOpen = false := by
  constructor
  · exact ((claim4_validation rbFix (some ndFix) "x" stFix).1 "unexpected token" rfl).1
  · exact ((claim4_validation rbFix (some ndFix) "1" stFix).2 (JValue.num 1) rfl).1

/-- C5 counterexample: on a non-leaf node with primitive edited text and a
failing patch, the two flows install different fallback selections — the
modal flow derives the rows from the keys of the primitive (none), the
inline flow from the shape of the parsed value (one keyless row) — so the
flows are not behaviorally equivalent. -/
theorem claim5_counterexample :
    (handleSaveModal (fun _ => []) (some ⟨[], [⟨some "a", JValue.num 1, "number"⟩,
        ⟨some "b", JValue.num 2, "number"⟩]⟩) "5"
      ⟨JValue.num 0, [], none, none, none, true⟩).selected ≠
    (handleSaveInline (fun _ => []) (some ⟨[], [⟨some "a", JValue.num 1, "number"⟩,
        ⟨some "b", JValue.num 2, "number"⟩]⟩) "5"
      ⟨JValue.num 0, [], none, none, none, true⟩).selected := by
  intro h
  rw [show (handleSaveModal (fun _ => []) (some ⟨[], [⟨some "a", JValue.num 1, "number"⟩,
        ⟨some "b", JValue.num 2, "number"⟩]⟩) "5"
      ⟨JValue.num 0, [], none, none, none, true⟩).selected = some ⟨[], []⟩ from rfl,
    show (handleSaveInline (fun _ => []) (some ⟨[], [⟨some "a", JValue.num 1, "number"⟩,
        ⟨some "b", JValue.num 2, "number"⟩]⟩) "5"
      ⟨JValue.num 0, [], none, none, none, true⟩).selected
      = some ⟨[], [⟨none, JValue.num 5, "number"⟩]⟩ from rfl] at h
  simp at h

/-- C5 (amended): the two flows produce the same resulting document, the
same selected node and the same session error whenever every fallback they
take computes the same row list in both flows — in particular whenever the
patch phase succeeds; when the patch fails and the parsed value's shape
disagrees with the node's leaf-ness the fallback row lists differ and the
selections diverge. -/
theorem claim5_equiv (rb : JValue → List NodeData) (nd : Option NodeData) (text : String)
    (st : AppState)
    (hcond : ∀ n v, nd = some n → jsonParse text = .ok v →
      (∃ d, patchResult n v st.doc = .ok d) ∨
      fallbackRowsModal (isLeafRows n.text) v = rowsOfValue v) :
    (handleSaveModal rb nd text st).doc = (handleSaveInline rb nd text st).doc ∧
    (handleSaveModal rb nd text st).selected = (handleSaveInline rb nd text st).selected ∧
    (handleSaveModal rb nd text st).error = (handleSaveInline rb nd text st).error := by
  cases hp : jsonParse text with
  | error e =>
      simp only [handleSaveModal, handleSaveInline, hp]
      exact ⟨trivial, trivial, trivial⟩
  | ok v =>
      cases nd with
      | none =>
          simp only [handleSaveModal, handleSaveInline, hp]
          exact ⟨trivial, trivial, trivial⟩
      | some n =>
          cases hpr : patchResult n v st.doc with
          | ok d =>
              simp only [handleSaveModal, handleSaveInline, hp, hpr]
              exact ⟨trivial, trivial, trivial⟩
          | error e =>
              rcases hcond n v rfl hp with ⟨d, hd⟩ | hrows
              · rw [hd] at hpr; exact Except.noConfusion hpr
              · simp only [handleSaveModal, handleSaveInline, hp, hpr, hrows]
                exact ⟨trivial, trivial, trivial⟩

/-- Witness for claim5_equiv on a successful field-set save: both flows
commit the same document. -/
theorem claim5_equiv_witness :
    (handleSaveModal rbFix (some ndFix) "\x7b\"a\":1\x7d" stFix).doc
      = (handleSaveInline rbFix (some ndFix) "\x7b\"a\":1\x7d" stFix).doc := by
  refine (claim5_equiv rbFix (some ndFix) "\x7b\"a\":1\x7d" stFix ?_).1
  intro n v hn hv
  injection hn with hn
  subst hn
  rw [show jsonParse "\x7b\"a\":1\x7d" = .ok (JValue.obj [("a", JValue.num 1)]) from rfl] at hv
  injection hv with hv
  subst hv
  exact Or.inl ⟨JValue.obj [("user", JValue.obj [("a", JValue.num 1)])], rfl⟩

/-- C8: reselection after a committed save: when some rebuilt node's path
is structurally equal to the edited path the first such node becomes the
selection, and when none is the selection is left unchanged. -/
theorem claim8_reselect (rb : JValue → List NodeData) (nd : NodeData) (text : String)
    (st : AppState) (v newDoc : JValue)
    (hp : jsonParse text = .ok v)
    (hpatch : patchResult nd v st.doc = .ok newDoc) :
    ((rb newDoc).find? (fun n => n.path == nd.path) = none →
      (handleSaveModal rb (some nd) text st).selected = st.selected) ∧
    (∀ f, (rb newDoc).find? (fun n => n.path == nd.path) = some f →
      (handleSaveModal rb (some nd) text st).selected = some f ∧
      f ∈ rb newDoc ∧ f.path = nd.path) := by
  constructor
  · intro hfind
    simp only [handleSaveModal, hp, hpatch, reselect, hfind]
  · intro f hfind
    refine ⟨?_, List.mem_of_find?_eq_some hfind, ?_⟩
    · simp only [handleSaveModal, hp, hpatch, reselect, hfind]
    · have hbeq : (f.path == nd.path) = true := by
        have hpred := List.find?_some hfind
        simpa using hpred
      exact eq_of_beq hbeq

/-- Witness for claim8_reselect: after a committed leaf save the rebuilt
node at the edited path becomes the selection. -/
theorem claim8_reselect_witness :
    (handleSaveModal rbFix (some ⟨[.key "user"], [⟨none, JValue.null, "null"⟩]⟩)
      "1" stFix).selected = some ⟨[.key "user"], []⟩ := by
  refine ((claim8_reselect rbFix ⟨[.key "user"], [⟨none, JValue.null, "null"⟩]⟩ "1" stFix
    (JValue.num 1) (JValue.obj [("user", JValue.num 1)]) rfl rfl).2
    ⟨[.key "user"], []⟩ rfl).1

/-- C10: a save with an absent node and parsable text only closes the
editor, leaving the document, the persisted-contents mirror and the
selection untouched in both flows; with unparsable text it records the
error and changes nothing else, exactly as for a present node. -/
theorem claim10_absent_node (rb : JValue → List NodeData) (text : String) (st : AppState) :
    (∀ v, jsonParse text = .ok v →
      handleSaveModal rb none text st = { st with editorOpen := false } ∧
      handleSaveInline rb none text st = { st with editorOpen := false }) ∧
    (∀ e, jsonParse text = .error e →
      handleSaveModal rb none text st = { st with error := some e } ∧
      handleSaveInline rb none text st = { st with error := some e }) := by
  constructor
  · intro v hv
    constructor
    · simp only [handleSaveModal, hv]
    · simp only [handleSaveInline, hv]
  · intro e he
    constructor
    · simp only [handleSaveModal, he]
    · simp only [handleSaveInline, he]

/-- Witness for claim10_absent_node: with no node, saving parsable text
only closes the editor. -/
theorem claim10_absent_node_witness :
    handleSaveModal rbFix none "1" stFix = { stFix with editorOpen := false } :=
  ((claim10_absent_node rbFix "1" stFix).1 (JValue.num 1) rfl).1
